import Mathlib

/-!
Verification of the tile-based level engine of `bevy_sidescroller`.

Rust strings are modelled as `List Char`; `u32` values as `Nat` with explicit
`< 2 ^ 32` bounds where Rust's `parse::<u32>` overflow checking matters.
Fallible Rust functions returning `Result` are modelled as `Except String`;
a Rust function that can panic is modelled with an outer `Option`, where
`none` means the panic (no value is returned to the caller).

Sources embedded here:
  - `src/systems/level_loader.rs`  (CSV parser `parse_level_text`, serializer
    `save_level_to_file`)
  - `src/systems/level_parser.rs`  (symbol map, `parse_level_from_symbols_with_map`,
    `validate_symbol_level`)
  - `src/systems/tiled_loader.rs`  (`tiled_map_to_level_data`,
    `tiled_map_to_level_data_with_mapping`)
  - `src/systems/level_templates.rs` (`LevelTemplate`, `room`, `place_template`)
  - `src/systems/level_editor.rs`  (`level_editor_save_load`)
-/

namespace Sidescroller

/-- The character list of a Lean string literal (used to write concrete Rust
string inputs). -/
def strChars (s : String) : List Char := s.data

instance exceptDecEq {ε α : Type} [DecidableEq ε] [DecidableEq α] :
    DecidableEq (Except ε α) := fun
  | .error e, .error f =>
    match decEq e f with
    | isTrue h => isTrue (by rw [h])
    | isFalse h => isFalse (by intro hh; injection hh; contradiction)
  | .error _, .ok _ => isFalse (by intro h; exact Except.noConfusion h)
  | .ok _, .error _ => isFalse (by intro h; exact Except.noConfusion h)
  | .ok a, .ok b =>
    match decEq a b with
    | isTrue h => isTrue (by rw [h])
    | isFalse h => isFalse (by intro hh; injection hh; contradiction)

/-! ### Rust string primitives over `List Char` -/

/-- Model of Rust `str::split(sep)` for a one-character separator: the list of
(possibly empty) chunks between occurrences of `sep`.  Never returns `[]`,
matching Rust (splitting the empty string yields one empty chunk). -/
def splitOnChar (sep : Char) : List Char → List (List Char)
  | [] => [[]]
  | c :: cs =>
    let rest := splitOnChar sep cs
    if c = sep then [] :: rest
    else
      match rest with
      | [] => [[c]]
      | r :: rs => (c :: r) :: rs

/-- Drop one trailing carriage return, as Rust `str::lines` does for `\r\n`
line endings. -/
def stripTrailingCR (cs : List Char) : List Char :=
  if cs.getLast? = some '\r' then cs.dropLast else cs

/-- Model of Rust `str::lines()`: split at `'\n'`, drop the final empty chunk
produced by a trailing newline, and strip a trailing `'\r'` from each line. -/
def rustLines (cs : List Char) : List (List Char) :=
  let parts := splitOnChar '\n' cs
  let parts := if parts.getLast? = some [] then parts.dropLast else parts
  parts.map stripTrailingCR

/-- Model of Rust `str::trim()`.  Rust trims Unicode whitespace; this agrees
with `Char.isWhitespace` on all ASCII input, which is all the CSV format uses. -/
def rustTrim (cs : List Char) : List Char :=
  ((cs.dropWhile Char.isWhitespace).reverse.dropWhile Char.isWhitespace).reverse

/-- Numeric value of an ASCII digit character. -/
def digitVal (c : Char) : Nat := c.toNat - 48

/-- Decimal value of a digit string, most significant digit first. -/
def parseDigits (cs : List Char) : Nat :=
  cs.foldl (fun a c => a * 10 + digitVal c) 0

/-- Model of Rust `str::parse::<u32>()`: an optional leading `'+'`, then one or
more ASCII digits, value below `2 ^ 32`; anything else is a parse error
(`none`). -/
def parseU32 (cs : List Char) : Option Nat :=
  let t := if cs.headD ' ' = '+' then cs.tail else cs
  if t.isEmpty then none
  else if t.all Char.isDigit then
    let n := parseDigits t
    if n < 4294967296 then some n else none
  else none

/-- Least-significant-first decimal digit characters of `n` (empty for `0`).
The first argument is structural fuel; any `fuel ≥ n` gives the digits of `n`. -/
def natDigitsAux : Nat → Nat → List Char
  | _, 0 => []
  | 0, _ + 1 => []
  | fuel + 1, n + 1 => Nat.digitChar ((n + 1) % 10) :: natDigitsAux fuel ((n + 1) / 10)

/-- Model of Rust `u32::to_string()` (the standard decimal representation). -/
def natToChars (n : Nat) : List Char :=
  if n = 0 then ['0'] else (natDigitsAux n n).reverse

/-- Model of Rust `Vec<String>::join(sep)` for a one-character separator. -/
def joinSep (sep : Char) : List (List Char) → List Char
  | [] => []
  | [x] => x
  | x :: xs => x ++ sep :: joinSep sep xs

/-- Rust `str::len()` is the UTF-8 byte length. -/
def byteLen (line : List Char) : Nat := (line.map Char.utf8Size).sum

/-! ### The level data model (`components.rs`) -/

/-- Rust `pub struct LevelData { width: u32, height: u32, tiles: Vec<Vec<u32>> }` -/
structure LevelData where
  width : Nat
  height : Nat
  tiles : List (List Nat)
deriving DecidableEq, Repr

/-- The grid-shape invariant of the data model: `tiles.len() == height` and
every row has length `width`. -/
def LevelData.Wf (L : LevelData) : Prop :=
  L.tiles.length = L.height ∧ ∀ row ∈ L.tiles, row.length = L.width

instance (L : LevelData) : Decidable L.Wf := by
  unfold LevelData.Wf; infer_instance

/-- A valid `LevelData` for the CSV round-trip: well-formed grid, dimensions
within the documented bounds, and every tile id a `u32` value. -/
def LevelData.ValidCSV (L : LevelData) : Prop :=
  L.Wf ∧ 1 ≤ L.width ∧ L.width ≤ 200 ∧ 1 ≤ L.height ∧ L.height ≤ 50 ∧
    ∀ row ∈ L.tiles, ∀ t ∈ row, t < 4294967296

instance (L : LevelData) : Decidable L.ValidCSV := by
  unfold LevelData.ValidCSV; infer_instance

/-- Read cell `(r, c)` of a grid, defaulting to `0` out of bounds. -/
def getCell (g : List (List Nat)) (r c : Nat) : Nat :=
  (g.getD r []).getD c 0

/-- Model of the Rust assignment `tiles[r][c] = v` (a no-op out of bounds;
all uses are proved in bounds). -/
def setTile (g : List (List Nat)) (r c v : Nat) : List (List Nat) :=
  g.set r ((g.getD r []).set c v)

/-- Shape of a grid: `h` rows, each of length `w`. -/
def GridDims (g : List (List Nat)) (h w : Nat) : Prop :=
  g.length = h ∧ ∀ i < h, (g.getD i []).length = w

/-! ### CSV parser and serializer (`level_loader.rs`) -/

/-- One data row: `lines[i].split(',').map(|s| s.trim().parse::<u32>()).collect()`. -/
def parseRow (line : List Char) : Option (List Nat) :=
  (splitOnChar ',' line).mapM fun s => parseU32 (rustTrim s)

/-- The row loop of `parse_level_text`: read `count` rows starting at line
index `idx`, failing if a line is missing or a token does not parse. -/
def parseTileRows (lines : List (List Char)) : Nat → Nat → Except String (List (List Nat))
  | _, 0 => .ok []
  | idx, count + 1 =>
    if lines.length ≤ idx then .error "Insufficient tile data"
    else
      match parseRow (lines.getD idx []) with
      | none => .error "invalid digit found in string"
      | some row =>
        match parseTileRows lines (idx + 1) count with
        | .error e => .error e
        | .ok rows => .ok (row :: rows)

/-- The function `parse_level_text` from `level_loader.rs`.  The outer `Option` models the
panic: the Rust code indexes `dimensions[1]` without a length check, so a
header whose first token parses as `u32` but which contains no comma panics
(`none`).  Everything else is returned as `Ok`/`Err` (`some`). -/
def parse_level_text (text : List Char) : Option (Except String LevelData) :=
  let lines := rustLines text
  if lines.isEmpty then some (.error "Empty level file")
  else
    let dimensions := splitOnChar ',' (lines.getD 0 [])
    match parseU32 (dimensions.getD 0 []) with
    | none => some (.error "invalid digit found in string")
    | some width =>
      match dimensions.get? 1 with
      | none => none
      | some d1 =>
        match parseU32 d1 with
        | none => some (.error "invalid digit found in string")
        | some height =>
          match parseTileRows lines 1 height with
          | .error e => some (.error e)
          | .ok tiles => some (.ok { width := width, height := height, tiles := tiles })

/-- The text produced by `save_level_to_file` (the file write aside):
`"{width},{height}\n"` followed by each row joined with `","` plus `'\n'`. -/
def serialize_level (L : LevelData) : List Char :=
  natToChars L.width ++ [','] ++ natToChars L.height ++ ['\n'] ++
    (L.tiles.map fun row => joinSep ',' (row.map natToChars) ++ ['\n']).flatten

/-! ### Symbol map and symbol parser (`level_parser.rs`) -/

/-- Model of `HashMap<char, u32>::insert`: later inserts overwrite earlier
ones for the same key. -/
def hmInsert (m : Char → Option Nat) (key : Char) (v : Nat) : Char → Option Nat :=
  fun c => if c = key then some v else m c

/-- Rust `pub struct LevelSymbolMap { symbols: HashMap<char, u32>, ... }`.
The `reverse_map` field is omitted: it is built by iterating the hash map in
an unspecified order and none of the verified claims mention it. -/
structure LevelSymbolMap where
  symbols : Char → Option Nat

/-- Model of `LevelSymbolMap::new()`: the default alphabet, one insert per Rust line. -/
def LevelSymbolMap.new : LevelSymbolMap :=
  let symbols : Char → Option Nat := fun _ => none
  let symbols := hmInsert symbols '.' 255
  let symbols := hmInsert symbols 'G' 180
  let symbols := hmInsert symbols 'S' 176
  let symbols := hmInsert symbols 'B' 184
  let symbols := hmInsert symbols 'R' 177
  let symbols := hmInsert symbols 'P' 181
  let symbols := hmInsert symbols 'W' 182
  let symbols := hmInsert symbols 'M' 183
  let symbols := hmInsert symbols 'F' 183
  let symbols := hmInsert symbols 'T' 185
  let symbols := hmInsert symbols 'C' 187
  let symbols := hmInsert symbols '^' 188
  let symbols := hmInsert symbols '~' 189
  let symbols := hmInsert symbols 'L' 190
  let symbols := hmInsert symbols '#' 176
  let symbols := hmInsert symbols '=' 181
  let symbols := hmInsert symbols '|' 176
  let symbols := hmInsert symbols '+' 184
  let symbols := hmInsert symbols '*' 187
  { symbols := symbols }

/-- Model of `LevelSymbolMap::custom(mappings)`: insert the default empty tile, then
the user mappings in order (an insert for `'.'` in the list overwrites the
default, as `HashMap::insert` does). -/
def LevelSymbolMap.custom (mappings : List (Char × Nat)) : LevelSymbolMap :=
  let symbols : Char → Option Nat := fun _ => none
  let symbols := hmInsert symbols '.' 255
  let symbols := mappings.foldl (fun m p => hmInsert m p.1 p.2) symbols
  { symbols := symbols }

/-- Model of `LevelSymbolMap::get_tile`. -/
def LevelSymbolMap.get_tile (m : LevelSymbolMap) (symbol : Char) : Option Nat :=
  m.symbols symbol

/-- Model of `line.trim().starts_with("//")`. -/
def startsWithSlashSlash : List Char → Bool
  | '/' :: '/' :: _ => true
  | _ => false

/-- The line filter shared by `parse_level_from_symbols_with_map` and
`validate_symbol_level`: keep lines that are non-blank after trimming and do
not begin (after trimming) with `//`. -/
def filterLines (text : List Char) : List (List Char) :=
  (rustLines text).filter fun line =>
    !(rustTrim line).isEmpty && !startsWithSlashSlash (rustTrim line)

/-- Model of `lines.iter().map(|line| line.len()).max().unwrap_or(0)` over `Nat`. -/
def listMaxNat (l : List Nat) : Nat := l.foldl max 0

/-- The function `parse_level_from_symbols_with_map` from `level_parser.rs`.
The Rust code initialises a `height × width` grid of `255` and overwrites
cell `(y, x)` with `get_tile(ch).unwrap_or(255)` for each character `ch` at
char-index `x < width` of line `y`; each cell is written at most once, so the
grid is produced here directly.  `width` is the maximum byte length. -/
def parse_level_from_symbols_with_map (text : List Char) (symbol_map : LevelSymbolMap) :
    Except String LevelData :=
  let lines := filterLines text
  if lines.isEmpty then .error "Empty level file"
  else
    let height := lines.length
    let width := listMaxNat (lines.map byteLen)
    .ok { width := width, height := height,
          tiles := lines.map fun line =>
            (List.range width).map fun x =>
              match line.get? x with
              | some ch => (symbol_map.get_tile ch).getD 255
              | none => 255 }

/-- The per-line loop of `validate_symbol_level`: each kept line must have the
expected byte length and contain only characters known to the default map. -/
def validateLines (m : LevelSymbolMap) (expected : Nat) : List (List Char) → Except String Unit
  | [] => .ok ()
  | line :: rest =>
    if byteLen line ≠ expected then .error "Line has different width than first line"
    else
      match line.find? (fun ch => (m.get_tile ch).isNone) with
      | some _ => .error "Unknown symbol"
      | none => validateLines m expected rest

/-- The function `validate_symbol_level` from `level_parser.rs`. -/
def validate_symbol_level (text : List Char) : Except String Unit :=
  let lines := filterLines text
  if lines.isEmpty then .error "Level contains no valid lines"
  else validateLines LevelSymbolMap.new (byteLen (lines.getD 0 [])) lines

/-! ### Tiled JSON conversion (`tiled_loader.rs`) -/

/-- Rust `pub struct TiledLayer` (fields used by the converters; the serde-only
fields `visible`, `opacity`, `properties` are omitted). -/
structure TiledLayer where
  name : String
  layer_type : String
  width : Nat
  height : Nat
  data : List Nat
deriving DecidableEq, Repr

/-- Rust `pub struct TiledMap` (fields used by the converters; `tilesets` and
`properties` are omitted). -/
structure TiledMap where
  width : Nat
  height : Nat
  tilewidth : Nat
  tileheight : Nat
  layers : List TiledLayer
deriving DecidableEq, Repr

/-- Model of `tiled_map_to_level_data`: find the first `tilelayer`; the Rust code
initialises a `height × width` grid of `255` and overwrites cell `(y, x)`
with the shifted value whenever `y * width + x < data.len()`; each cell is
written at most once, so the grid is produced here directly. -/
def tiled_map_to_level_data (tiled_map : TiledMap) : Except String LevelData :=
  match tiled_map.layers.find? (fun layer => layer.layer_type = "tilelayer") with
  | none => .error "No tile layer found in Tiled map"
  | some main_layer =>
    .ok { width := tiled_map.width, height := tiled_map.height,
          tiles := (List.range tiled_map.height).map fun y =>
            (List.range tiled_map.width).map fun x =>
              let index := y * tiled_map.width + x
              if index < main_layer.data.length then
                let d := main_layer.data.getD index 0
                if d > 0 then d - 1 else 255
              else 255 }

/-- Model of `tiled_map_to_level_data_with_mapping`: as above, with `HashMap<u32,u32>`
modelled as its lookup function; the remap is applied to the shifted id. -/
def tiled_map_to_level_data_with_mapping (tiled_map : TiledMap)
    (tile_mapping : Nat → Option Nat) : Except String LevelData :=
  match tiled_map.layers.find? (fun layer => layer.layer_type = "tilelayer") with
  | none => .error "No tile layer found in Tiled map"
  | some main_layer =>
    .ok { width := tiled_map.width, height := tiled_map.height,
          tiles := (List.range tiled_map.height).map fun y =>
            (List.range tiled_map.width).map fun x =>
              let index := y * tiled_map.width + x
              if index < main_layer.data.length then
                let tiled_tile_id := main_layer.data.getD index 0
                if tiled_tile_id > 0 then
                  let normalized_id := tiled_tile_id - 1
                  (tile_mapping normalized_id).getD normalized_id
                else 255
              else 255 }

/-! ### Templates (`level_templates.rs`) -/

/-- Rust `pub struct LevelTemplate { name, pattern, width, height }` -/
structure LevelTemplate where
  name : String
  pattern : List (List Nat)
  width : Nat
  height : Nat

/-- The well-formedness the data model assumes of a template: `pattern` is a
`height × width` grid. -/
def LevelTemplate.Wf (T : LevelTemplate) : Prop :=
  T.pattern.length = T.height ∧ ∀ row ∈ T.pattern, row.length = T.width

instance (T : LevelTemplate) : Decidable T.Wf := by
  unfold LevelTemplate.Wf; infer_instance

/-- Inner loop of `place_template`: write the non-`255` entries of one
template row into grid row `y`, columns `start_x + x0, start_x + x0 + 1, …`. -/
def placeRowAux (g : List (List Nat)) : List Nat → Nat → Nat → Nat → List (List Nat)
  | [], _, _, _ => g
  | tile :: rest, start_x, y, x0 =>
    placeRowAux (if tile ≠ 255 then setTile g y (start_x + x0) tile else g) rest start_x y (x0 + 1)

/-- Outer loop of `place_template`: place the pattern rows starting at grid
row `start_y + y0`. -/
def placePattern (g : List (List Nat)) : List (List Nat) → Nat → Nat → Nat → List (List Nat)
  | [], _, _, _ => g
  | row :: rows, start_x, start_y, y0 =>
    placePattern (placeRowAux g row start_x (start_y + y0) 0) rows start_x start_y (y0 + 1)

/-- The function `place_template` from `level_templates.rs`: bounds check, then overwrite
every non-transparent template cell. -/
def place_template (level_data : LevelData) (template : LevelTemplate)
    (start_x start_y : Nat) : LevelData × Bool :=
  if start_x + template.width > level_data.width ∨
      start_y + template.height > level_data.height then
    (level_data, false)
  else
    ({ level_data with tiles := placePattern level_data.tiles template.pattern start_x start_y 0 },
      true)

/-- Model of `LevelTemplate::room`: a `height × width` grid of `255`, then the two
write loops of the Rust code, in program order. -/
def room (width height wall_tile floor_tile : Nat) : LevelTemplate :=
  let pattern : List (List Nat) := List.replicate height (List.replicate width 255)
  let pattern := (List.range width).foldl
    (fun p x => setTile (setTile p 0 x wall_tile) (height - 1) x floor_tile) pattern
  let pattern := (List.range height).foldl
    (fun p y => setTile (setTile p y 0 wall_tile) y (width - 1) wall_tile) pattern
  { name := "Room", pattern := pattern, width := width, height := height }

/-! ### Editor save/load (`level_editor.rs`) -/

/-- The inputs read by the `level_editor_save_load` system in one frame. -/
structure SaveLoadCtx where
  enabled : Bool
  keyS : Bool
  keyL : Bool
  levelData : Option LevelData
  /-- Content of `assets/levels/editor_level.csv`; `none` models an I/O error. -/
  fileText : Option (List Char)

/-- Model of `load_level_from_file`: read the file (I/O errors become `Err`), then
`parse_level_text`.  The outer `Option` is the parser's panic, as above. -/
def load_level_from_file (fileText : Option (List Char)) : Option (Except String LevelData) :=
  match fileText with
  | none => some (.error "IO error")
  | some t => parse_level_text t

/-- The system `level_editor_save_load` from `level_editor.rs`, as a function from the
frame's inputs to the `LevelData` resource after the system ran.  On KeyS the
level is serialized to disk (no resource change); on KeyL the Rust code binds
the parse result to `_loaded_level` and drops it ("You'll need to implement
level switching logic here"), so the resource is returned unchanged on every
path. -/
def level_editor_save_load (ctx : SaveLoadCtx) : Option LevelData :=
  if !ctx.enabled then ctx.levelData
  else
    match ctx.levelData with
    | none => ctx.levelData
    | some levelData =>
      let _loaded_level := if ctx.keyL then load_level_from_file ctx.fileText else none
      some levelData

/-! ### Toolkit: decimal printing parses back -/

/-- The ten ASCII digit characters. -/
def digitChars : List Char := ['0', '1', '2', '3', '4', '5', '6', '7', '8', '9']

theorem digitChar_facts : ∀ d < 10, digitVal (Nat.digitChar d) = d ∧ Nat.digitChar d ∈ digitChars := by
  decide

theorem digitChars_facts :
    ∀ c ∈ digitChars, c.isDigit = true ∧ c.isWhitespace = false ∧
      c ≠ ',' ∧ c ≠ '\n' ∧ c ≠ '\r' ∧ c ≠ '+' := by
  decide

theorem natDigitsAux_spec : ∀ fuel n, n ≤ fuel →
    (natDigitsAux fuel n).foldr (fun c acc => acc * 10 + digitVal c) 0 = n ∧
      ∀ c ∈ natDigitsAux fuel n, c ∈ digitChars := by
  intro fuel
  induction fuel with
  | zero =>
    intro n hn
    interval_cases n
    exact ⟨rfl, by simp [natDigitsAux]⟩
  | succ fuel ih =>
    intro n hn
    match n with
    | 0 => exact ⟨rfl, by simp [natDigitsAux]⟩
    | m + 1 =>
      have hdiv : (m + 1) / 10 ≤ fuel := by
        have : (m + 1) / 10 < m + 1 := Nat.div_lt_self (Nat.succ_pos m) (by omega)
        omega
      obtain ⟨ihval, ihmem⟩ := ih ((m + 1) / 10) hdiv
      have hmod : (m + 1) % 10 < 10 := Nat.mod_lt _ (by omega)
      obtain ⟨hval, hmem⟩ := digitChar_facts ((m + 1) % 10) hmod
      refine ⟨?_, ?_⟩
      · simp only [natDigitsAux, List.foldr_cons, ihval, hval]
        omega
      · intro c hc
        simp only [natDigitsAux, List.mem_cons] at hc
        rcases hc with rfl | hc
        · exact hmem
        · exact ihmem c hc

theorem natToChars_mem {n : Nat} {c : Char} (h : c ∈ natToChars n) : c ∈ digitChars := by
  unfold natToChars at h
  split at h
  · simp only [List.mem_singleton] at h
    subst h
    decide
  · rw [List.mem_reverse] at h
    exact (natDigitsAux_spec n n le_rfl).2 c h

theorem natToChars_ne_nil (n : Nat) : natToChars n ≠ [] := by
  unfold natToChars
  split
  · simp
  · rename_i hn
    match hm : n, hn with
    | m + 1, _ => simp [natDigitsAux]

theorem parseDigits_reverse (l : List Char) :
    parseDigits l.reverse = l.foldr (fun c acc => acc * 10 + digitVal c) 0 := by
  simp [parseDigits, List.foldl_reverse]

theorem rustTrim_eq_self {cs : List Char} (h : ∀ c ∈ cs, c.isWhitespace = false) :
    rustTrim cs = cs := by
  have drop : ∀ (l : List Char), (∀ c ∈ l, c.isWhitespace = false) → l.dropWhile Char.isWhitespace = l := by
    intro l hl
    cases l with
    | nil => rfl
    | cons x xs => simp [List.dropWhile_cons, hl x (by simp)]
  unfold rustTrim
  rw [drop cs h, drop cs.reverse (by intro c hc; exact h c (List.mem_reverse.mp hc)), List.reverse_reverse]

theorem parseU32_natToChars {n : Nat} (h : n < 4294967296) :
    parseU32 (natToChars n) = some n := by
  have hmem := fun c hc => natToChars_mem (n := n) (c := c) hc
  have hdigit : ∀ c ∈ natToChars n, c.isDigit = true := fun c hc =>
    (digitChars_facts c (hmem c hc)).1
  have hhead : (natToChars n).headD ' ' ≠ '+' := by
    cases hcs : natToChars n with
    | nil => exact absurd hcs (natToChars_ne_nil n)
    | cons c rest =>
      have : c ∈ digitChars := hmem c (by rw [hcs]; simp)
      have := (digitChars_facts c this).2.2.2.2.2
      simpa using this
  have hval : parseDigits (natToChars n) = n := by
    unfold natToChars
    split
    · rename_i h0; subst h0; rfl
    · rw [parseDigits_reverse]
      exact (natDigitsAux_spec n n le_rfl).1
  unfold parseU32
  simp only [hhead, if_false, if_neg]
  rw [if_neg (by cases hcs : natToChars n with
        | nil => exact absurd hcs (natToChars_ne_nil n)
        | cons c rest => simp),
      if_pos (List.all_eq_true.mpr hdigit)]
  simp only [hval, h, if_pos]

/-! ### Toolkit: splitting undoes joining -/

theorem splitOnChar_ne_nil (sep : Char) (cs : List Char) : splitOnChar sep cs ≠ [] := by
  induction cs with
  | nil => simp [splitOnChar]
  | cons c cs ih =>
    simp only [splitOnChar]
    split
    · simp
    · match hr : splitOnChar sep cs with
      | [] => simp
      | r :: rs => simp

theorem splitOnChar_not_mem {sep : Char} {cs : List Char} (h : sep ∉ cs) :
    splitOnChar sep cs = [cs] := by
  induction cs with
  | nil => rfl
  | cons c cs ih =>
    have hc : ¬c = sep := fun hc => h (by simp [hc])
    have hrest : splitOnChar sep cs = [cs] := ih (fun hm => h (by simp [hm]))
    simp only [splitOnChar, hrest, if_neg hc]

theorem splitOnChar_append_cons {sep : Char} {xs : List Char} (ys : List Char)
    (h : sep ∉ xs) : splitOnChar sep (xs ++ sep :: ys) = xs :: splitOnChar sep ys := by
  induction xs with
  | nil => simp [splitOnChar]
  | cons x xs ih =>
    have hx : ¬x = sep := fun hc => h (by simp [hc])
    have hrest := ih (fun hm => h (by simp [hm]))
    simp only [List.cons_append, splitOnChar, if_neg hx]
    rw [show xs.append (sep :: ys) = xs ++ sep :: ys from rfl, hrest]

theorem splitOnChar_joinSep {sep : Char} : ∀ (pieces : List (List Char)), pieces ≠ [] →
    (∀ p ∈ pieces, sep ∉ p) → splitOnChar sep (joinSep sep pieces) = pieces
  | [], hne, _ => absurd rfl hne
  | [x], _, h => by
    simp only [joinSep]
    exact splitOnChar_not_mem (h x (by simp))
  | x :: y :: rest, _, h => by
    have hx : sep ∉ x := h x (by simp)
    have ihrest := splitOnChar_joinSep (y :: rest) (by simp)
      (fun p hp => h p (by simp only [List.mem_cons] at hp ⊢; tauto))
    simp only [joinSep, splitOnChar_append_cons _ hx, ihrest]

theorem splitOnChar_flatten_newline {pieces : List (List Char)}
    (h : ∀ p ∈ pieces, '\n' ∉ p) :
    splitOnChar '\n' ((pieces.map (· ++ ['\n'])).flatten) = pieces ++ [[]] := by
  induction pieces with
  | nil => rfl
  | cons p ps ih =>
    have hp : '\n' ∉ p := h p (by simp)
    have ihr := ih (fun q hq => h q (by simp [hq]))
    simp only [List.map_cons, List.flatten_cons, List.append_assoc, List.singleton_append,
      splitOnChar_append_cons _ hp, List.nil_append, ihr, List.cons_append]

theorem rustLines_flatten {pieces : List (List Char)}
    (h : ∀ p ∈ pieces, '\n' ∉ p ∧ p.getLast? ≠ some '\r') :
    rustLines ((pieces.map (· ++ ['\n'])).flatten) = pieces := by
  have hmap : ∀ (l : List (List Char)), (∀ p ∈ l, p.getLast? ≠ some '\r') →
      l.map stripTrailingCR = l := by
    intro l hl
    induction l with
    | nil => rfl
    | cons q qs ihq =>
      have hq : stripTrailingCR q = q := by
        unfold stripTrailingCR
        rw [if_neg (hl q (by simp))]
      simp only [List.map_cons, hq, ihq (fun p hp => hl p (by simp [hp]))]
  simp only [rustLines, splitOnChar_flatten_newline (fun p hp => (h p hp).1),
    List.getLast?_concat, List.dropLast_concat, if_pos]
  exact hmap pieces (fun p hp => (h p hp).2)

/-! ### Toolkit: CSV round-trip assembly -/

theorem mem_joinSep {sep : Char} {c : Char} : ∀ {pieces : List (List Char)},
    c ∈ joinSep sep pieces → c = sep ∨ ∃ p ∈ pieces, c ∈ p
  | [], h => by simp [joinSep] at h
  | [x], h => by
    simp only [joinSep] at h
    exact Or.inr ⟨x, by simp, h⟩
  | x :: y :: rest, h => by
    simp only [joinSep, List.mem_append, List.mem_cons] at h
    rcases h with hx | rfl | hrest
    · exact Or.inr ⟨x, by simp, hx⟩
    · exact Or.inl rfl
    · rcases mem_joinSep hrest with hs | ⟨p, hp, hc⟩
      · exact Or.inl hs
      · exact Or.inr ⟨p, by simp only [List.mem_cons] at hp ⊢; tauto, hc⟩

/-- A string of digits and commas contains no newline and does not end in a
carriage return. -/
theorem csvPiece_safe {p : List Char} (h : ∀ c ∈ p, c ∈ digitChars ∨ c = ',') :
    '\n' ∉ p ∧ p.getLast? ≠ some '\r' := by
  constructor
  · intro hmem
    rcases h _ hmem with hd | hc
    · exact absurd hd (by decide)
    · exact absurd hc (by decide)
  · intro hlast
    have : '\r' ∈ p := List.mem_of_mem_getLast? hlast
    rcases h _ this with hd | hc
    · exact absurd hd (by decide)
    · exact absurd hc (by decide)

theorem comma_not_mem_natToChars (n : Nat) : ',' ∉ natToChars n := by
  intro hmem
  have := natToChars_mem hmem
  exact absurd this (by decide)

theorem mapM_parseU32_natToChars {row : List Nat} (hb : ∀ t ∈ row, t < 4294967296) :
    (row.map natToChars).mapM (fun s => parseU32 (rustTrim s)) = some row := by
  induction row with
  | nil => rfl
  | cons t ts ih =>
    have htrim : rustTrim (natToChars t) = natToChars t :=
      rustTrim_eq_self fun c hc => (digitChars_facts c (natToChars_mem hc)).2.1
    simp only [List.map_cons, List.mapM_cons, htrim, parseU32_natToChars (hb t (by simp)),
      ih (fun u hu => hb u (by simp [hu]))]
    rfl

theorem parseRow_roundtrip {row : List Nat} (hne : row ≠ [])
    (hb : ∀ t ∈ row, t < 4294967296) :
    parseRow (joinSep ',' (row.map natToChars)) = some row := by
  unfold parseRow
  rw [splitOnChar_joinSep (row.map natToChars) (by simpa using hne)
    (by intro p hp
        simp only [List.mem_map] at hp
        obtain ⟨t, _, rfl⟩ := hp
        exact comma_not_mem_natToChars t)]
  exact mapM_parseU32_natToChars hb

theorem parseTileRows_ok (lines : List (List Char)) :
    ∀ (rows : List (List Nat)) (idx : Nat),
      idx + rows.length ≤ lines.length →
      (∀ i, i < rows.length → parseRow (lines.getD (idx + i) []) = some (rows.getD i [])) →
      parseTileRows lines idx rows.length = .ok rows
  | [], idx, _, _ => rfl
  | r :: rs, idx, hlen, hrows => by
    have hidx : ¬lines.length ≤ idx := by simp at hlen ⊢; omega
    have h0 : parseRow (lines.getD idx []) = some r := by
      have := hrows 0 (by simp)
      simpa using this
    have hrec : parseTileRows lines (idx + 1) rs.length = .ok rs :=
      parseTileRows_ok lines rs (idx + 1) (by simp at hlen ⊢; omega)
        (fun i hi => by
          have := hrows (i + 1) (by simp; omega)
          simpa [Nat.add_assoc, Nat.add_comm 1 i] using this)
    simp only [List.length_cons, parseTileRows, if_neg hidx, h0, hrec]

theorem parseTileRows_length (lines : List (List Char)) :
    ∀ (count idx : Nat) (rows : List (List Nat)),
      parseTileRows lines idx count = .ok rows → rows.length = count
  | 0, idx, rows, h => by
    simp only [parseTileRows] at h
    cases h
    rfl
  | count + 1, idx, rows, h => by
    simp only [parseTileRows] at h
    split at h
    · cases h
    · split at h
      · cases h
      · split at h
        · cases h
        · rename_i rest hrest
          cases h
          simpa using parseTileRows_length lines count (idx + 1) _ hrest

/-- The serialized text is the header line and one line per row, each with a
trailing newline. -/
theorem serialize_level_flatten (L : LevelData) :
    serialize_level L =
      (((natToChars L.width ++ ',' :: natToChars L.height) ::
        L.tiles.map fun row => joinSep ',' (row.map natToChars)).map (· ++ ['\n'])).flatten := by
  simp [serialize_level, List.map_map, Function.comp_def, List.append_assoc]

/-- Claim C1 (CSV round-trip): parsing the CSV text produced by serializing a
valid level yields that level back, as `Ok`. -/
theorem csv_roundtrip (L : LevelData) (h : L.ValidCSV) :
    parse_level_text (serialize_level L) = some (.ok L) := by
  obtain ⟨⟨hlen, hrows⟩, hw1, hw2, hh1, hh2, hbound⟩ := h
  have hwlt : L.width < 4294967296 := by omega
  have hhlt : L.height < 4294967296 := by omega
  set header : List Char := natToChars L.width ++ ',' :: natToChars L.height with hheader
  set rowLines : List (List Char) := L.tiles.map fun row => joinSep ',' (row.map natToChars)
    with hrowLines
  have hheadermem : ∀ c ∈ header, c ∈ digitChars ∨ c = ',' := by
    intro c hc
    rw [hheader] at hc
    simp only [List.mem_append, List.mem_cons] at hc
    rcases hc with hc | rfl | hc
    · exact Or.inl (natToChars_mem hc)
    · exact Or.inr rfl
    · exact Or.inl (natToChars_mem hc)
  have hrowmem : ∀ p ∈ rowLines, ∀ c ∈ p, c ∈ digitChars ∨ c = ',' := by
    intro p hp c hc
    rw [hrowLines] at hp
    simp only [List.mem_map] at hp
    obtain ⟨row, _, rfl⟩ := hp
    rcases mem_joinSep hc with rfl | ⟨q, hq, hcq⟩
    · exact Or.inr rfl
    · simp only [List.mem_map] at hq
      obtain ⟨t, _, rfl⟩ := hq
      exact Or.inl (natToChars_mem hcq)
  have hlines : rustLines (serialize_level L) = header :: rowLines := by
    rw [serialize_level_flatten]
    exact rustLines_flatten (by
      intro p hp
      simp only [List.mem_cons] at hp
      rcases hp with rfl | hp
      · exact csvPiece_safe hheadermem
      · exact csvPiece_safe (hrowmem p hp))
  have hdims : splitOnChar ',' header = [natToChars L.width, natToChars L.height] := by
    rw [hheader, splitOnChar_append_cons _ (comma_not_mem_natToChars L.width),
      splitOnChar_not_mem (comma_not_mem_natToChars L.height)]
  have htilerows : parseTileRows (header :: rowLines) 1 L.height = .ok L.tiles := by
    rw [← hlen]
    refine parseTileRows_ok _ L.tiles 1 (by simp [hrowLines]; omega) ?_
    intro i hi
    have hgetD : (header :: rowLines).getD (1 + i) [] = rowLines.getD i [] := by
      rw [Nat.add_comm]
      rfl
    have hrowget : rowLines.getD i [] = joinSep ',' ((L.tiles.getD i []).map natToChars) := by
      rw [hrowLines, List.getD_eq_getElem?_getD, List.getElem?_map,
        List.getElem?_eq_getElem hi, List.getD_eq_getElem?_getD,
        List.getElem?_eq_getElem hi]
      rfl
    rw [hgetD, hrowget]
    have hmem : L.tiles.getD i [] ∈ L.tiles := by
      rw [List.getD_eq_getElem?_getD, List.getElem?_eq_getElem hi]
      exact List.getElem_mem hi
    exact parseRow_roundtrip (by have := hrows _ hmem; intro hnil; rw [hnil] at this; simp at this; omega)
      (fun t ht => hbound _ hmem t ht)
  rw [parse_level_text, hlines]
  simp only [List.isEmpty_cons, Bool.false_eq_true, if_false, List.getD_cons_zero, hdims,
    List.getD_cons_succ, List.getD_nil]
  simp only [parseU32_natToChars hwlt, List.get?_cons_succ, List.get?_cons_zero,
    parseU32_natToChars hhlt, htilerows]

/-- Witness for C1 at a concrete valid level. -/
theorem csv_roundtrip_witness :
    (⟨1, 1, [[7]]⟩ : LevelData).ValidCSV ∧
      parse_level_text (serialize_level ⟨1, 1, [[7]]⟩) = some (.ok ⟨1, 1, [[7]]⟩) :=
  ⟨by decide, csv_roundtrip ⟨1, 1, [[7]]⟩ (by decide)⟩

/-- Claim C2 (no parser panics) fails on the code: a first line whose first
comma-separated token parses as `u32` but which contains no comma makes
`parse_level_text` index `dimensions[1]` out of bounds — a panic (`none` in
the model), not an `Ok`/`Err` returned to the caller. -/
theorem parse_level_text_panics_on_comma_free_header :
    parse_level_text (strChars "5") = none := by decide

/-- Claim C3, first refutation half: `parse_level_text` performs no
column-count check.  The input `"2,1\n5"` declares `width = 2` but its only
data row has one entry; the claim says this must be a parse error, yet the
code returns `Ok`, and the resulting `LevelData` violates the row-length
half of the grid-shape invariant. -/
theorem parse_level_text_no_column_check :
    parse_level_text (strChars "2,1\n5") = some (.ok ⟨2, 1, [[5]]⟩) ∧
      ((⟨2, 1, [[5]]⟩ : LevelData).tiles.getD 0 []).length ≠ (⟨2, 1, [[5]]⟩ : LevelData).width :=
  ⟨by decide, by decide⟩

/-- Claim C3 as amended: `parse_level_text` never checks column counts, but
every `LevelData` it returns does satisfy the row-count half of the invariant,
`tiles.len() == height`. -/
theorem parse_level_text_ok_height (text : List Char) (L : LevelData)
    (h : parse_level_text text = some (.ok L)) : L.tiles.length = L.height := by
  rw [parse_level_text] at h
  split at h
  · exact absurd h (by simp)
  · dsimp only at h
    split at h
    · exact absurd h (by simp)
    · split at h
      · exact absurd h (by simp)
      · split at h
        · exact absurd h (by simp)
        · split at h
          · exact absurd h (by simp)
          · rename_i tiles hrest
            simp only [Option.some.injEq, Except.ok.injEq] at h
            subst h
            simpa using parseTileRows_length _ _ _ _ hrest

/-- Witness for the amended C3 at a concrete input. -/
theorem parse_level_text_ok_height_witness :
    (⟨2, 1, [[5]]⟩ : LevelData).tiles.length = (⟨2, 1, [[5]]⟩ : LevelData).height :=
  parse_level_text_ok_height (strChars "2,1\n5") ⟨2, 1, [[5]]⟩ (by decide)

/-! ### Tiled conversion (C4) -/

theorem natIf_shift (d : Nat) :
    (if 0 < d then d - 1 else 255) = if d = 0 then 255 else d - 1 := by
  cases d <;> simp

theorem natIf_shiftMap (mapping : Nat → Option Nat) (d : Nat) :
    (if 0 < d then (mapping (d - 1)).getD (d - 1) else 255) =
      if d = 0 then 255 else (mapping (d - 1)).getD (d - 1) := by
  cases d <;> simp

theorem getCell_range_map {h w : Nat} {f : Nat → Nat → Nat} {y x : Nat}
    (hy : y < h) (hx : x < w) :
    getCell ((List.range h).map fun y => (List.range w).map fun x => f y x) y x = f y x := by
  have houter : ((List.range h).map fun y => (List.range w).map fun x => f y x).getD y [] =
      (List.range w).map fun x => f y x := by
    rw [List.getD_eq_getElem?_getD, List.getElem?_map, List.getElem?_range hy]
    rfl
  unfold getCell
  rw [houter, List.getD_eq_getElem?_getD, List.getElem?_map, List.getElem?_range hx]
  rfl

/-- Claim C4 (Tiled shift and remap): with `layer` the first `tilelayer` and
`d` the raw value at an in-range cell, the plain converter yields `255` for
`d = 0` and `d - 1` otherwise, and the mapping converter applies the remap to
`d - 1` when present, passing unmapped ids through, still `255` for `d = 0`. -/
theorem tiled_conversion_cells :
    (∀ (m : TiledMap) (L : LevelData) (layer : TiledLayer) (y x : Nat),
        m.layers.find? (fun l => l.layer_type = "tilelayer") = some layer →
        tiled_map_to_level_data m = .ok L →
        y < m.height → x < m.width → y * m.width + x < layer.data.length →
        getCell L.tiles y x =
          if layer.data.getD (y * m.width + x) 0 = 0 then 255
          else layer.data.getD (y * m.width + x) 0 - 1) ∧
    (∀ (m : TiledMap) (mapping : Nat → Option Nat) (L : LevelData) (layer : TiledLayer)
        (y x : Nat),
        m.layers.find? (fun l => l.layer_type = "tilelayer") = some layer →
        tiled_map_to_level_data_with_mapping m mapping = .ok L →
        y < m.height → x < m.width → y * m.width + x < layer.data.length →
        getCell L.tiles y x =
          if layer.data.getD (y * m.width + x) 0 = 0 then 255
          else (mapping (layer.data.getD (y * m.width + x) 0 - 1)).getD
            (layer.data.getD (y * m.width + x) 0 - 1)) := by
  constructor
  · intro m L layer y x hfind hok hy hx hidx
    rw [tiled_map_to_level_data, hfind] at hok
    simp only [Except.ok.injEq] at hok
    subst hok
    rw [getCell_range_map hy hx]
    simp only [if_pos hidx]
    exact natIf_shift _
  · intro m mapping L layer y x hfind hok hy hx hidx
    rw [tiled_map_to_level_data_with_mapping, hfind] at hok
    simp only [Except.ok.injEq] at hok
    subst hok
    rw [getCell_range_map hy hx]
    simp only [if_pos hidx]
    exact natIf_shiftMap _ _

/-- Witness for C4: the sample 3×3 map of the repository's test, cells (0,0)
and (2,2), for both converters. -/
theorem tiled_conversion_cells_witness :
    getCell ((⟨3, 3, [[0, 0, 0], [255, 255, 255], [255, 255, 1]]⟩ : LevelData)).tiles 2 2 = 1 ∧
    getCell ((⟨3, 3, [[180, 180, 180], [255, 255, 255], [255, 255, 1]]⟩ : LevelData)).tiles 0 0
      = 180 := by
  constructor
  · have := tiled_conversion_cells.1
      ⟨3, 3, 16, 16, [⟨"Ground", "tilelayer", 3, 3, [1, 1, 1, 0, 0, 0, 0, 0, 2]⟩]⟩
      ⟨3, 3, [[0, 0, 0], [255, 255, 255], [255, 255, 1]]⟩
      ⟨"Ground", "tilelayer", 3, 3, [1, 1, 1, 0, 0, 0, 0, 0, 2]⟩ 2 2
      (by decide) (by decide) (by decide) (by decide) (by decide)
    simpa using this
  · have := tiled_conversion_cells.2
      ⟨3, 3, 16, 16, [⟨"Ground", "tilelayer", 3, 3, [1, 1, 1, 0, 0, 0, 0, 0, 2]⟩]⟩
      (fun n => if n = 0 then some 180 else none)
      ⟨3, 3, [[180, 180, 180], [255, 255, 255], [255, 255, 1]]⟩
      ⟨"Ground", "tilelayer", 3, 3, [1, 1, 1, 0, 0, 0, 0, 0, 2]⟩ 0 0
      (by decide) (by decide) (by decide) (by decide) (by decide)
    simpa using this

/-! ### Editor load (C7) -/

/-- Claim C7 fails on the code: `level_editor_save_load` never writes the
`LevelData` resource.  On a successful load of a level different from the
active one, the active level is returned unchanged and the loaded level is
dropped, against the claim that it replaces the active level. -/
theorem level_editor_load_discards :
    (∀ ctx : SaveLoadCtx, level_editor_save_load ctx = ctx.levelData) ∧
      level_editor_save_load ⟨true, false, true, some ⟨1, 1, [[0]]⟩, some (strChars "1,1\n7")⟩ =
        some ⟨1, 1, [[0]]⟩ ∧
      load_level_from_file (some (strChars "1,1\n7")) = some (.ok ⟨1, 1, [[7]]⟩) ∧
      (⟨1, 1, [[7]]⟩ : LevelData) ≠ ⟨1, 1, [[0]]⟩ := by
  refine ⟨?_, by decide, by decide, by decide⟩
  intro ctx
  obtain ⟨e, s, l, ld, ft⟩ := ctx
  cases e <;> cases ld <;> rfl

/-! ### Symbol map (C9) -/

/-- Claim C9 fails on the code: `LevelSymbolMap::custom` inserts `'.' → 255`
*before* the user mappings, so a user pair for `'.'` overwrites the empty
mapping. -/
theorem custom_overwrites_empty_mapping :
    (LevelSymbolMap.custom [('.', 0)]).get_tile '.' = some 0 ∧
      (LevelSymbolMap.custom [('.', 0)]).get_tile '.' ≠ some 255 :=
  ⟨by decide, by decide⟩

theorem foldl_hmInsert_ne : ∀ (maps : List (Char × Nat)) (m : Char → Option Nat) (c : Char),
    (∀ p ∈ maps, p.1 ≠ c) → maps.foldl (fun m p => hmInsert m p.1 p.2) m c = m c
  | [], _, _, _ => rfl
  | p :: ps, m, c, h => by
    rw [List.foldl_cons, foldl_hmInsert_ne ps _ c (fun q hq => h q (by simp [hq]))]
    unfold hmInsert
    exact if_neg (fun hc => h p (by simp) hc.symm)

/-- Claim C9 as amended: `custom` maps `'.'` to `255` whenever the user list
itself contains no mapping for `'.'`. -/
theorem custom_includes_empty_mapping (mappings : List (Char × Nat))
    (h : ∀ p ∈ mappings, p.1 ≠ '.') :
    (LevelSymbolMap.custom mappings).get_tile '.' = some 255 := by
  unfold LevelSymbolMap.custom LevelSymbolMap.get_tile
  dsimp only
  rw [foldl_hmInsert_ne mappings _ '.' h]
  rfl

/-- Witness for the amended C9. -/
theorem custom_includes_empty_mapping_witness :
    (LevelSymbolMap.custom [('G', 180)]).get_tile '.' = some 255 :=
  custom_includes_empty_mapping [('G', 180)] (by decide)

/-! ### Room template (C8) -/

/-- Claim C8 fails on the code: in `room(3, 3, wall := 1, floor := 2)` the
bottom-left cell is `1` (wall), because the border-column loop runs after the
bottom-row loop and overwrites the bottom corners, while the claim demands
every bottom-row cell equal `floor = 2`. -/
theorem room_bottom_corner_is_wall :
    getCell (room 3 3 1 2).pattern 2 0 = 1 ∧ (1 : Nat) ≠ 2 :=
  ⟨by decide, by decide⟩

/-! ### Toolkit: grid cell writes -/

theorem getD_set_eq {α : Type} (l : List α) (i j : Nat) (a d : α) :
    (l.set i a).getD j d = if i = j ∧ i < l.length then a else l.getD j d := by
  rw [List.getD_eq_getElem?_getD, List.getElem?_set, List.getD_eq_getElem?_getD]
  by_cases h1 : i = j
  · subst h1
    by_cases h2 : i < l.length
    · simp [h2]
    · rw [if_pos rfl, if_neg h2, if_neg (by tauto), List.getElem?_eq_none (by omega)]
  · rw [if_neg h1, if_neg (by tauto)]

theorem getD_mem {α : Type} (l : List α) (i : Nat) (d : α) (h : i < l.length) :
    l.getD i d ∈ l := by
  rw [List.getD_eq_getElem?_getD, List.getElem?_eq_getElem h]
  exact List.getElem_mem h

theorem getCell_setTile (g : List (List Nat)) (r c v r' c' : Nat) :
    getCell (setTile g r c v) r' c' =
      if r = r' ∧ c = c' ∧ r < g.length ∧ c < (g.getD r []).length then v
      else getCell g r' c' := by
  unfold getCell setTile
  rw [getD_set_eq]
  by_cases h1 : r = r' ∧ r < g.length
  · obtain ⟨rfl, hr⟩ := h1
    rw [if_pos ⟨rfl, hr⟩, getD_set_eq]
    by_cases h2 : c = c' ∧ c < (g.getD r []).length
    · rw [if_pos h2, if_pos ⟨rfl, h2.1, hr, h2.2⟩]
    · rw [if_neg h2, if_neg (by tauto)]
  · rw [if_neg h1, if_neg (by tauto)]

/-- The placement loops never change a cell of the written row left of the
write window, right of it, or under a transparent (`255`) template cell, and
never change other rows. -/
theorem placeRowAux_getCell_unchanged :
    ∀ (row : List Nat) (g : List (List Nat)) (start_x y x0 r c : Nat),
      (y ≠ r ∨ c < start_x + x0 ∨ start_x + x0 + row.length ≤ c ∨
        row.getD (c - (start_x + x0)) 0 = 255) →
      getCell (placeRowAux g row start_x y x0) r c = getCell g r c
  | [], _, _, _, _, _, _, _ => rfl
  | t :: rest, g, sx, y, x0, r, c, h => by
    have hrec : ∀ g', getCell g' r c = getCell g r c →
        (y ≠ r ∨ c < sx + (x0 + 1) ∨ sx + (x0 + 1) + rest.length ≤ c ∨
          rest.getD (c - (sx + (x0 + 1))) 0 = 255) →
        getCell (placeRowAux g' rest sx y (x0 + 1)) r c = getCell g r c := by
      intro g' hg' hcond
      rw [placeRowAux_getCell_unchanged rest g' sx y (x0 + 1) r c hcond, hg']
    have hskip : ∀ (hne : ¬(y = r ∧ sx + x0 = c)),
        getCell (if t ≠ 255 then setTile g y (sx + x0) t else g) r c = getCell g r c := by
      intro hne
      split
      · rw [getCell_setTile, if_neg (by tauto)]
      · rfl
    simp only [placeRowAux]
    rcases h with hy | hlt | hge | h255
    · exact hrec _ (hskip (by tauto)) (Or.inl hy)
    · exact hrec _ (hskip (by omega)) (Or.inr (Or.inl (by omega)))
    · simp only [List.length_cons] at hge
      exact hrec _ (hskip (by omega)) (Or.inr (Or.inr (Or.inl (by omega))))
    · by_cases hc : c = sx + x0
      · subst hc
        simp only [Nat.sub_self, List.getD_cons_zero] at h255
        subst h255
        have : ¬(255 ≠ 255) := by simp
        rw [if_neg this]
        exact hrec _ rfl (Or.inr (Or.inl (by omega)))
      · rcases Nat.lt_or_ge c (sx + x0) with hlt | hgt
        · exact hrec _ (hskip (by omega)) (Or.inr (Or.inl (by omega)))
        · have hsucc : c - (sx + x0) = (c - (sx + (x0 + 1))) + 1 := by omega
          rw [hsucc, List.getD_cons_succ] at h255
          exact hrec _ (hskip (by omega)) (Or.inr (Or.inr (Or.inr h255)))

theorem placePattern_getCell_unchanged :
    ∀ (rows : List (List Nat)) (g : List (List Nat)) (start_x start_y y0 r c : Nat),
      (∀ i, i < rows.length → start_y + y0 + i = r →
        (c < start_x ∨ start_x + (rows.getD i []).length ≤ c ∨
          (rows.getD i []).getD (c - start_x) 0 = 255)) →
      getCell (placePattern g rows start_x start_y y0) r c = getCell g r c
  | [], _, _, _, _, _, _, _ => rfl
  | row :: rest, g, sx, sy, y0, r, c, h => by
    simp only [placePattern]
    rw [placePattern_getCell_unchanged rest _ sx sy (y0 + 1) r c (fun i hi heq => by
      have := h (i + 1) (by simp only [List.length_cons]; omega) (by omega)
      simpa using this)]
    by_cases hy : sy + y0 = r
    · rcases h 0 (by simp) (by omega) with hc | hc | hc
      · exact placeRowAux_getCell_unchanged row g sx (sy + y0) 0 r c
          (Or.inr (Or.inl (by omega)))
      · simp only [List.getD_cons_zero] at hc
        exact placeRowAux_getCell_unchanged row g sx (sy + y0) 0 r c
          (Or.inr (Or.inr (Or.inl (by omega))))
      · simp only [List.getD_cons_zero] at hc
        exact placeRowAux_getCell_unchanged row g sx (sy + y0) 0 r c
          (Or.inr (Or.inr (Or.inr (by simpa using hc))))
    · exact placeRowAux_getCell_unchanged row g sx (sy + y0) 0 r c (Or.inl hy)

/-! ### Template placement (C5, C6) -/

/-- Claim C5 (placement bounds): `place_template` returns `true` exactly when
the template fits, and a `false` return leaves the level untouched.  The
`< 2 ^ 32` hypotheses pin the `u32` additions of the bounds check. -/
theorem place_template_bounds (L : LevelData) (T : LevelTemplate) (start_x start_y : Nat)
    (_hL : L.Wf) (_hT : T.Wf)
    (_hox : start_x + T.width < 4294967296) (_hoy : start_y + T.height < 4294967296) :
    ((place_template L T start_x start_y).2 = true ↔
        start_x + T.width ≤ L.width ∧ start_y + T.height ≤ L.height) ∧
      ((place_template L T start_x start_y).2 = false →
        (place_template L T start_x start_y).1 = L) := by
  unfold place_template
  split
  · rename_i hgt
    refine ⟨by simp; omega, fun _ => rfl⟩
  · rename_i hle
    refine ⟨by simp; omega, by simp⟩

/-- Witness for C5 at a concrete level and template. -/
theorem place_template_bounds_witness :
    ((place_template ⟨2, 2, [[9, 9], [9, 9]]⟩ ⟨"t", [[255, 1], [255, 255]], 2, 2⟩ 0 0).2 = true ↔
        0 + 2 ≤ 2 ∧ 0 + 2 ≤ 2) ∧
      ((place_template ⟨2, 2, [[9, 9], [9, 9]]⟩ ⟨"t", [[255, 1], [255, 255]], 2, 2⟩ 0 0).2 = false →
        (place_template ⟨2, 2, [[9, 9], [9, 9]]⟩ ⟨"t", [[255, 1], [255, 255]], 2, 2⟩ 0 0).1 =
          ⟨2, 2, [[9, 9], [9, 9]]⟩) :=
  place_template_bounds _ _ 0 0 (by decide) (by decide) (by decide) (by decide)

/-- Claim C6 (template transparency): under a successful in-bounds placement,
cells under a `255` template cell keep their previous value, and cells outside
the placed rectangle are untouched. -/
theorem place_template_transparent (L : LevelData) (T : LevelTemplate) (start_x start_y : Nat)
    (_hL : L.Wf) (hT : T.Wf)
    (hbx : start_x + T.width ≤ L.width) (hby : start_y + T.height ≤ L.height) :
    (∀ py px, py < T.height → px < T.width →
        (T.pattern.getD py []).getD px 0 = 255 →
        getCell (place_template L T start_x start_y).1.tiles (start_y + py) (start_x + px) =
          getCell L.tiles (start_y + py) (start_x + px)) ∧
      (∀ r c, r < L.height → c < L.width →
        ¬(start_y ≤ r ∧ r < start_y + T.height ∧ start_x ≤ c ∧ c < start_x + T.width) →
        getCell (place_template L T start_x start_y).1.tiles r c = getCell L.tiles r c) := by
  have hplace : (place_template L T start_x start_y).1.tiles =
      placePattern L.tiles T.pattern start_x start_y 0 := by
    unfold place_template
    rw [if_neg (by omega)]
  obtain ⟨hTlen, hTrow⟩ := hT
  constructor
  · intro py px hpy hpx h255
    rw [hplace]
    apply placePattern_getCell_unchanged
    intro i hi heq
    have hieq : i = py := by omega
    subst hieq
    right; right
    rw [Nat.add_sub_cancel_left]
    exact h255
  · intro r c hr hc hout
    rw [hplace]
    apply placePattern_getCell_unchanged
    intro i hi heq
    have hrowlen : (T.pattern.getD i []).length = T.width :=
      hTrow _ (getD_mem _ _ _ hi)
    rcases Nat.lt_or_ge c start_x with h1 | h1
    · exact Or.inl h1
    · right; left
      rw [hrowlen]
      omega

/-- Witness for C6 at a concrete level and template. -/
theorem place_template_transparent_witness :
    getCell (place_template ⟨2, 2, [[9, 9], [9, 9]]⟩
        ⟨"t", [[255, 1], [255, 255]], 2, 2⟩ 0 0).1.tiles (0 + 0) (0 + 0) =
      getCell [[9, 9], [9, 9]] (0 + 0) (0 + 0) :=
  (place_template_transparent ⟨2, 2, [[9, 9], [9, 9]]⟩ ⟨"t", [[255, 1], [255, 255]], 2, 2⟩ 0 0
    (by decide) (by decide) (by decide) (by decide)).1 0 0 (by decide) (by decide) (by decide)

/-! ### Room pattern (C8) -/

theorem gridDims_replicate (h w v : Nat) :
    GridDims (List.replicate h (List.replicate w v)) h w := by
  refine ⟨List.length_replicate _ _, fun i hi => ?_⟩
  rw [List.getD_eq_getElem?_getD, List.getElem?_replicate, if_pos hi]
  exact List.length_replicate _ _

theorem gridDims_setTile {g : List (List Nat)} {h w : Nat} (hg : GridDims g h w)
    (r c v : Nat) : GridDims (setTile g r c v) h w := by
  obtain ⟨hlen, hrow⟩ := hg
  refine ⟨by rw [setTile, List.length_set, hlen], fun i hi => ?_⟩
  rw [setTile, getD_set_eq]
  split
  · rename_i hcond
    rw [List.length_set]
    exact hrow r (by omega)
  · exact hrow i hi

theorem gridDims_foldl_range {h w : Nat} (f : List (List Nat) → Nat → List (List Nat))
    (hf : ∀ p x, GridDims p h w → GridDims (f p x) h w) :
    ∀ (n : Nat) (p : List (List Nat)), GridDims p h w →
      GridDims ((List.range n).foldl f p) h w := by
  intro n
  induction n with
  | zero => intro p hp; exact hp
  | succ n ih =>
    intro p hp
    rw [List.range_succ, List.foldl_append]
    exact hf _ _ (ih p hp)

theorem getCell_replicate {h w : Nat} (v : Nat) {y x : Nat} (hy : y < h) (hx : x < w) :
    getCell (List.replicate h (List.replicate w v)) y x = v := by
  have houter : (List.replicate h (List.replicate w v)).getD y [] = List.replicate w v := by
    rw [List.getD_eq_getElem?_getD, List.getElem?_replicate, if_pos hy]
    rfl
  unfold getCell
  rw [houter, List.getD_eq_getElem?_getD, List.getElem?_replicate, if_pos hx]
  rfl

/-- Cell value after the first `room` loop (top-row wall then bottom-row
floor, column by column, over columns `0 .. n-1`). -/
theorem room_loopA_getCell (wall floor h w r c : Nat) :
    ∀ (n : Nat) (p : List (List Nat)), GridDims p h w → n ≤ w →
      getCell ((List.range n).foldl
          (fun p x => setTile (setTile p 0 x wall) (h - 1) x floor) p) r c =
        if (r = 0 ∨ r = h - 1) ∧ c < n ∧ r < h ∧ c < w then
          (if r = h - 1 then floor else wall)
        else getCell p r c := by
  intro n
  induction n with
  | zero =>
    intro p _ _
    rw [if_neg (by omega)]
    rfl
  | succ n ih =>
    intro p hp hn
    have hq : GridDims ((List.range n).foldl
        (fun p x => setTile (setTile p 0 x wall) (h - 1) x floor) p) h w :=
      gridDims_foldl_range _ (fun q x hqd => gridDims_setTile (gridDims_setTile hqd 0 x wall) _ x floor)
        n p hp
    have hq1 : GridDims (setTile ((List.range n).foldl
        (fun p x => setTile (setTile p 0 x wall) (h - 1) x floor) p) 0 n wall) h w :=
      gridDims_setTile hq 0 n wall
    rw [List.range_succ, List.foldl_append, List.foldl_cons, List.foldl_nil,
      getCell_setTile, getCell_setTile, ih p hp (by omega)]
    rw [hq1.1, hq.1]
    by_cases hb : r < h ∧ c < w
    · rw [hq1.2 (h - 1) (by omega), hq.2 0 (by omega)]
      split_ifs <;> first | rfl | (exfalso; omega)
    · split_ifs <;> first | rfl | (exfalso; omega)

/-- Cell value after the second `room` loop (left and right border columns,
row by row, over rows `0 .. n-1`). -/
theorem room_loopB_getCell (wall h w r c : Nat) :
    ∀ (n : Nat) (p : List (List Nat)), GridDims p h w → n ≤ h →
      getCell ((List.range n).foldl
          (fun p y => setTile (setTile p y 0 wall) y (w - 1) wall) p) r c =
        if r < n ∧ (c = 0 ∨ c = w - 1) ∧ r < h ∧ c < w then wall
        else getCell p r c := by
  intro n
  induction n with
  | zero =>
    intro p _ _
    rw [if_neg (by omega)]
    rfl
  | succ n ih =>
    intro p hp hn
    have hq : GridDims ((List.range n).foldl
        (fun p y => setTile (setTile p y 0 wall) y (w - 1) wall) p) h w :=
      gridDims_foldl_range _ (fun q y hqd => gridDims_setTile (gridDims_setTile hqd y 0 wall) y _ wall)
        n p hp
    have hq1 : GridDims (setTile ((List.range n).foldl
        (fun p y => setTile (setTile p y 0 wall) y (w - 1) wall) p) n 0 wall) h w :=
      gridDims_setTile hq n 0 wall
    rw [List.range_succ, List.foldl_append, List.foldl_cons, List.foldl_nil,
      getCell_setTile, getCell_setTile, ih p hp (by omega)]
    rw [hq1.1, hq.1, hq1.2 n (by omega), hq.2 n (by omega)]
    split_ifs <;> first | rfl | (exfalso; omega)

/-- Claim C8 as amended: in `room(w, h, wall, floor)`, border columns are
`wall` everywhere (including the bottom corners), the rest of the bottom row
is `floor`, the rest of the top row is `wall`, and the interior is `255`.
For `h = 1` the single row is `floor` except at the border columns, because
the bottom-row write follows the top-row write. -/
theorem room_cells (width height wall_tile floor_tile : Nat)
    (hw : 1 ≤ width) (hh : 1 ≤ height) (y x : Nat) (hy : y < height) (hx : x < width) :
    getCell (room width height wall_tile floor_tile).pattern y x =
      if x = 0 ∨ x = width - 1 then wall_tile
      else if y = height - 1 then floor_tile
      else if y = 0 then wall_tile
      else 255 := by
  unfold room
  dsimp only
  have hrep := gridDims_replicate height width 255
  have hA : GridDims ((List.range width).foldl
      (fun p x => setTile (setTile p 0 x wall_tile) (height - 1) x floor_tile)
      (List.replicate height (List.replicate width 255))) height width :=
    gridDims_foldl_range _
      (fun q x hqd => gridDims_setTile (gridDims_setTile hqd 0 x wall_tile) _ x floor_tile)
      width _ hrep
  rw [room_loopB_getCell wall_tile height width y x height _ hA le_rfl,
    room_loopA_getCell wall_tile floor_tile height width y x width _ hrep le_rfl,
    getCell_replicate 255 hy hx]
  split_ifs <;> first | rfl | (exfalso; omega)

/-- Witness for the amended C8 at concrete dimensions and tiles. -/
theorem room_cells_witness :
    getCell (room 3 3 1 2).pattern 2 1 =
      if (1 : Nat) = 0 ∨ (1 : Nat) = 3 - 1 then 1
      else if (2 : Nat) = 3 - 1 then 2
      else if (2 : Nat) = 0 then 1
      else 255 :=
  room_cells 3 3 1 2 (by decide) (by decide) 2 1 (by decide) (by decide)

/-! ### Symbol parser leniency (C10) -/

theorem length_le_byteLen : ∀ line : List Char, line.length ≤ byteLen line
  | [] => le_rfl
  | c :: cs => by
    have := Char.utf8Size_pos c
    have := length_le_byteLen cs
    simp only [byteLen, List.map_cons, List.sum_cons, List.length_cons] at *
    omega

theorem le_foldl_max : ∀ (l : List Nat) (acc : Nat),
    (∀ a ∈ l, a ≤ l.foldl max acc) ∧ acc ≤ l.foldl max acc
  | [], _ => ⟨by simp, le_rfl⟩
  | x :: xs, acc => by
    obtain ⟨hmem, hacc⟩ := le_foldl_max xs (max acc x)
    refine ⟨?_, ?_⟩
    · intro a ha
      rcases List.mem_cons.mp ha with rfl | ha
      · exact le_trans (le_max_right acc a) hacc
      · exact hmem a ha
    · exact le_trans (le_max_left acc x) hacc

theorem byteLen_le_listMax {line : List Char} {lines : List (List Char)}
    (h : line ∈ lines) : byteLen line ≤ listMaxNat (lines.map byteLen) :=
  (le_foldl_max (lines.map byteLen) 0).1 _ (List.mem_map_of_mem _ h)

theorem validateLines_ok :
    ∀ (lines : List (List Char)) (m : LevelSymbolMap) (expected : Nat),
      validateLines m expected lines = .ok () →
      ∀ line ∈ lines, ∀ ch ∈ line, (m.get_tile ch).isSome = true
  | [], _, _, _ => by simp
  | line :: rest, m, expected, h => by
    rw [validateLines] at h
    split at h
    · exact absurd h (by simp)
    · split at h
      · exact absurd h (by simp)
      · rename_i hfind
        intro l hl ch hch
        rcases List.mem_cons.mp hl with rfl | hl
        · have := List.find?_eq_none.mp hfind ch hch
          simpa [Option.isNone_iff_eq_none, Option.isSome_iff_ne_none] using this
        · exact validateLines_ok rest m expected h l hl ch hch

/-- Claim C10 (symbol parsing never rejects unknown characters):
`parse_level_from_symbols_with_map` errors exactly when no lines survive the
blank/comment filter; a character with no entry in the symbol map is stored
as the empty tile `255`; and the separate `validate_symbol_level` is the
function that rejects unknown symbols (an `Ok` validation means every kept
character is known to the default map). -/
theorem symbols_parser_lenient :
    (∀ (text : List Char) (m : LevelSymbolMap),
        (∃ e, parse_level_from_symbols_with_map text m = .error e) ↔ filterLines text = []) ∧
      (∀ (text : List Char) (m : LevelSymbolMap) (L : LevelData) (y x : Nat) (ch : Char),
        parse_level_from_symbols_with_map text m = .ok L →
        ((filterLines text).getD y []).get? x = some ch →
        m.get_tile ch = none →
        getCell L.tiles y x = 255) ∧
      (∀ text : List Char, validate_symbol_level text = .ok () →
        ∀ line ∈ filterLines text, ∀ ch ∈ line,
          (LevelSymbolMap.new.get_tile ch).isSome = true) := by
  refine ⟨?_, ?_, ?_⟩
  · intro text m
    constructor
    · rintro ⟨e, he⟩
      rw [parse_level_from_symbols_with_map] at he
      dsimp only at he
      split at he
      · rename_i hemp
        simpa [List.isEmpty_iff] using hemp
      · exact absurd he (by simp)
    · intro hnil
      refine ⟨"Empty level file", ?_⟩
      rw [parse_level_from_symbols_with_map]
      dsimp only
      rw [hnil]
      rfl
  · intro text m L y x ch hok hget htile
    rw [parse_level_from_symbols_with_map] at hok
    dsimp only at hok
    split at hok
    · exact absurd hok (by simp)
    · simp only [Except.ok.injEq] at hok
      subst hok
      have hy : y < (filterLines text).length := by
        by_contra hyn
        rw [List.getD_eq_getElem?_getD, List.getElem?_eq_none (by omega)] at hget
        simp at hget
      have hxline : x < ((filterLines text).getD y []).length := by
        by_contra hxn
        rw [List.get?_eq_none.mpr (by omega)] at hget
        cases hget
      have hxw : x < listMaxNat ((filterLines text).map byteLen) :=
        lt_of_lt_of_le hxline
          (le_trans (length_le_byteLen _)
            (byteLen_le_listMax (getD_mem _ _ _ hy)))
      dsimp only [getCell]
      have hrow : ((filterLines text).map fun line =>
            (List.range (listMaxNat ((filterLines text).map byteLen))).map fun x =>
              match line.get? x with
              | some ch => (m.get_tile ch).getD 255
              | none => 255).getD y [] =
          (List.range (listMaxNat ((filterLines text).map byteLen))).map fun x =>
            match ((filterLines text).getD y []).get? x with
            | some ch => (m.get_tile ch).getD 255
            | none => 255 := by
        rw [List.getD_eq_getElem?_getD, List.getElem?_map, List.getElem?_eq_getElem hy,
          List.getD_eq_getElem?_getD, List.getElem?_eq_getElem hy]
        rfl
      rw [hrow, List.getD_eq_getElem?_getD, List.getElem?_map, List.getElem?_range hxw]
      show (match ((filterLines text).getD y []).get? x with
        | some ch => (m.get_tile ch).getD 255
        | none => 255) = 255
      rw [hget]
      show (m.get_tile ch).getD 255 = 255
      rw [htile]
      rfl
  · intro text hok line hline ch hch
    rw [validate_symbol_level] at hok
    split at hok
    · exact absurd hok (by simp)
    · exact validateLines_ok _ _ _ hok line hline ch hch

/-- Witness for C10 at a concrete text: in `"GZ"`, the unknown character `'Z'`
is stored as `255` by the parser. -/
theorem symbols_parser_lenient_witness :
    getCell ((⟨2, 1, [[180, 255]]⟩ : LevelData)).tiles 0 1 = 255 :=
  symbols_parser_lenient.2.1 (strChars "GZ") LevelSymbolMap.new ⟨2, 1, [[180, 255]]⟩ 0 1 'Z'
    (by decide) (by decide) (by decide)

end Sidescroller
